import Mathlib

/-!
Verification of the cf-switch reconciliation core.

This file gives a shallow embedding, in Lean 4, of the parts of the
cf-switch repository that the specification talks about:

* `pkg/types/types.go`: hostname normalization (`ParseHostnames`), the
  match-expression builder (`BuildExpression`) and the flexible decoding
  of the rule `version` field (`FlexibleInt.UnmarshalJSON`);
* `internal/cloudflare/client.go`: the HTTP request/retry loop
  (`makeRequest`), the ruleset lookup (`GetEntrypointRuleset`,
  `FindRuleByDescription`);
* `internal/reconcile/reconciler.go`: the reconciler state machine
  (`reconcileOnce`, `ensureEntrypointRuleset`, `ensureRule`,
  `ToggleRule`, `UpdateHosts`, `GetCurrentRule`), its cache and the
  placement of its mutex.

Go strings are modelled as lists of characters (`GoStr`); Go machine
integers as `Int` with explicit 64-bit range checks where the source
checks ranges; fallible operations return `Except`.  The remote API is
modelled as an environment of responses, and each operation additionally
returns the list of remote calls it issued, so that claims about which
calls happen (and with which payloads) can be stated.
-/

namespace CfSwitch

/-- Go strings, modelled as their sequence of characters (runes). -/
abbrev GoStr := List Char

/-- Shorthand turning a Lean string literal into a `GoStr`. -/
def gs (s : String) : GoStr := s.data

/-- Model of Go `unicode.IsSpace` restricted to the Latin-1 range: the
space characters that can actually appear around hostnames.  (Go also
accepts the exotic Unicode space classes; none of the normalization
claims depend on those.) -/
def goIsSpaceChar (c : Char) : Bool :=
  c = ' ' || c = '\t' || c = '\n' || c = Char.ofNat 11 || c = Char.ofNat 12 ||
    c = '\r' || c = Char.ofNat 0x85 || c = Char.ofNat 0xA0

/-- Model of Go `unicode.ToLower` on a single character, restricted to
the ASCII letters (the simple one-to-one case mapping used by
`strings.ToLower`). -/
def goToLowerChar (c : Char) : Char :=
  if 'A' ≤ c ∧ c ≤ 'Z' then Char.ofNat (c.toNat + 32) else c

/-- Model of Go `strings.ToLower`: character-wise simple lowercasing. -/
def goToLower (s : GoStr) : GoStr := s.map goToLowerChar

/-- Model of Go `strings.TrimSpace`: drop spaces from both ends. -/
def goTrimSpace (s : GoStr) : GoStr :=
  ((s.dropWhile goIsSpaceChar).reverse.dropWhile goIsSpaceChar).reverse

/-- Model of Go `strings.Split(s, ",")` (non-empty single-character
separator): cut `s` at every comma.  Always returns at least one
segment, and segments never contain a comma. -/
def splitComma : GoStr → List GoStr
  | [] => [[]]
  | c :: rest =>
    if c = ',' then [] :: splitComma rest
    else
      match splitComma rest with
      | [] => [[c]]
      | seg :: segs => (c :: seg) :: segs

/-- Lexicographic order on `GoStr` by character code, as a Boolean
relation.  This is the order `sort.Strings` uses: Go compares strings
byte-wise, and UTF-8 byte order coincides with code-point order. -/
def leStr : GoStr → GoStr → Bool
  | [], _ => true
  | _ :: _, [] => false
  | a :: as, b :: bs => if a = b then leStr as bs else decide (a < b)

/-- Insert into an ascending list, preserving order. -/
def insertSorted (x : GoStr) : List GoStr → List GoStr
  | [] => [x]
  | y :: ys => if leStr x y then x :: y :: ys else y :: insertSorted x ys

/-- Insertion sort by `leStr`.  This models `sort.Strings`: the list
`ParseHostnames` sorts has no duplicates, so every correct sort — Go's
included — produces this same unique ascending permutation. -/
def sortStrings : List GoStr → List GoStr
  | [] => []
  | x :: xs => insertSorted x (sortStrings xs)

/-- The accumulation loop inside Go `ParseHostnames`
(`pkg/types/types.go:192-198`): for each comma-separated segment,
lowercase then trim; keep it if it is non-empty and not seen yet.  The
accumulator plays the role of both `result` and the `seen` set (the set
of seen hostnames is exactly the set already appended). -/
def parseHostnamesLoop : List GoStr → List GoStr → List GoStr
  | acc, [] => acc
  | acc, h :: t =>
    let hostname := goTrimSpace (goToLower h)
    if hostname ≠ [] ∧ hostname ∉ acc then
      parseHostnamesLoop (acc ++ [hostname]) t
    else
      parseHostnamesLoop acc t

/-- Model of Go `ParseHostnames` (`pkg/types/types.go:184-203`): empty
input yields nil; otherwise split on commas, lowercase + trim each
segment, drop empties, deduplicate keeping first occurrences, and sort
ascending. -/
def ParseHostnames (hostnames : GoStr) : List GoStr :=
  if hostnames = [] then []
  else sortStrings (parseHostnamesLoop [] (splitComma hostnames))

/-- Model of `fmt.Sprintf("\"%s\"", hostname)`: the hostname between two
double quotes, verbatim, with no escaping. -/
def quoteHost (h : GoStr) : GoStr := '"' :: h ++ ['"']

/-- Model of Go `BuildExpression` (`pkg/types/types.go:206-218`): empty
set gives the literal `false`; otherwise each hostname is quoted, the
quoted items are space-joined and wrapped in
`http.host in \x7b...\x7d`. -/
def BuildExpression (hostnames : List GoStr) : GoStr :=
  if hostnames = [] then gs "false"
  else
    gs "http.host in \x7b" ++
      List.intercalate (gs " ") (hostnames.map quoteHost) ++ gs "\x7d"

/-- Model of Go `fmt.Sprintf("%v", hostnames)` for a `[]string` value:
the elements printed verbatim, space-joined, wrapped in square brackets.
This is the string `UpdateHosts` (`internal/reconcile/reconciler.go:110`)
feeds to `ParseHostnames`. -/
def goSprintfV (xs : List GoStr) : GoStr :=
  gs "[" ++ List.intercalate (gs " ") xs ++ gs "]"

/-- Decimal digits of a candidate `Atoi` input, folded to a `Nat`;
`none` when the list is empty or contains a non-digit. -/
def decDigits : List Char → Option Nat
  | [] => none
  | [c] => if c.isDigit then some (c.toNat - '0'.toNat) else none
  | c :: rest =>
    if c.isDigit then
      match decDigits rest with
      | some n => some ((c.toNat - '0'.toNat) * 10 ^ rest.length + n)
      | none => none
    else none

/-- The int64 range check Go applies to `int` values on 64-bit
platforms. -/
def int64InRange (n : Int) : Bool := -(2 ^ 63) ≤ n ∧ n < 2 ^ 63

/-- Model of Go `strconv.Atoi`: an optional sign followed by at least
one decimal digit, rejecting anything else and values outside the int64
range. -/
def goAtoi (s : GoStr) : Option Int :=
  let signed : Option Int :=
    match s with
    | '+' :: rest => (decDigits rest).map Int.ofNat
    | '-' :: rest => (decDigits rest).map (fun n => -(Int.ofNat n))
    | _ => (decDigits s).map Int.ofNat
  match signed with
  | some n => if int64InRange n then some n else none
  | none => none

/-- The JSON values that can reach `FlexibleInt.UnmarshalJSON`, already
tokenised: null, booleans, integer number literals, non-integer number
literals (fraction or exponent), strings, arrays and objects. -/
inductive GoJson where
  | jnull
  | jbool (b : Bool)
  | jint (n : Int)
  | jfloat
  | jstr (s : GoStr)
  | jarr
  | jobj
deriving DecidableEq

/-- Go `json.Unmarshal` into an `int` target: succeeds exactly on an
integer number literal within the int64 range. -/
def jsonToInt : GoJson → Option Int
  | .jint n => if int64InRange n then some n else none
  | _ => none

/-- Go `json.Unmarshal` into a `string` target: succeeds exactly on a
JSON string. -/
def jsonToStr : GoJson → Option GoStr
  | .jstr s => some s
  | _ => none

deriving instance DecidableEq for Except

/-- Model of `FlexibleInt.UnmarshalJSON` (`pkg/types/types.go:78-106`):
`null` maps to 0; otherwise try to unmarshal as an integer; otherwise
try to unmarshal as a string and run `strconv.Atoi` on it; every other
shape is a decode error. -/
def flexibleIntUnmarshal (data : GoJson) : Except GoStr Int :=
  if data = .jnull then .ok 0
  else
    match jsonToInt data with
    | some n => .ok n
    | none =>
      match jsonToStr data with
      | none => .error (gs "version must be either int or string")
      | some s =>
        match goAtoi s with
        | some n => .ok n
        | none => .error (gs "version string is not a valid integer")

/-- Retry ceilings of the Cloudflare client
(`internal/cloudflare/client.go:21-28`). -/
def maxRetries : Nat := 3

/-- Maximum accepted `Retry-After` hint, in seconds. -/
def maxRetryWaitSeconds : Int := 60

/-- What one iteration of the `makeRequest` loop observes: either
`httpClient.Do` fails at the transport level, or it yields a response
with a status code and an optional `Retry-After` header. -/
inductive MRAttempt where
  | transportError (msg : GoStr)
  | response (status : Nat) (retryAfter : Option GoStr)
deriving DecidableEq

/-- How `makeRequest` ends: a response returned with a nil error, the
generic transport-exhaustion error, or the distinguished rate-limit
give-up error. -/
inductive MRResult where
  | respNoError (status : Nat)
  | failedAfterRetries (lastMsg : GoStr)
  | rateLimitedGiveUp
deriving DecidableEq

/-- The retry loop of `makeRequest`
(`internal/cloudflare/client.go:253-291`), as a function of the outcome
of each attempt.  `fuel` is the number of loop iterations left
(`maxRetries - attempt`), `sleeps` accumulates every duration passed to
`time.Sleep`, and `last` is the status of the response held in the
loop's `resp` variable.  When the loop range is exhausted (fuel 0,
reachable only via the hinted 429-retry `continue` on the final
attempt), the code falls through to `return resp, nil`. -/
def makeRequestLoop (outcome : Nat → MRAttempt) :
    Nat → Nat → List Int → Option Nat → List Int × MRResult
  | 0, _, sleeps, last => (sleeps, .respNoError (last.getD 0))
  | fuel + 1, attempt, sleeps, _ =>
    match outcome attempt with
    | .transportError msg =>
      if attempt = maxRetries - 1 then (sleeps, .failedAfterRetries msg)
      else makeRequestLoop outcome fuel (attempt + 1)
        (sleeps ++ [Int.ofNat (attempt + 1)]) none
    | .response status retryAfter =>
      if status = 429 then
        match retryAfter with
        | some hdr =>
          match goAtoi hdr with
          | some secs =>
            if secs ≤ maxRetryWaitSeconds then
              makeRequestLoop outcome fuel (attempt + 1) (sleeps ++ [secs])
                (some status)
            else (sleeps, .rateLimitedGiveUp)
          | none => (sleeps, .rateLimitedGiveUp)
        | none => (sleeps, .rateLimitedGiveUp)
      else (sleeps, .respNoError status)

/-- Model of `makeRequest` (`internal/cloudflare/client.go:229-302`),
restricted to its retry/backoff control flow: returns the list of sleep
durations issued and the final outcome. -/
def makeRequest (outcome : Nat → MRAttempt) : List Int × MRResult :=
  makeRequestLoop outcome maxRetries 0 [] none

/-- Model of `types.CloudflareRule` (`pkg/types/types.go:118-126`); the
`version` field already decoded to its numeric value. -/
structure CfRule where
  id : GoStr
  action : GoStr
  expression : GoStr
  description : GoStr
  enabled : Bool
  version : Int
deriving DecidableEq

/-- Model of `types.CloudflareRuleset` (`pkg/types/types.go:64-72`),
restricted to the fields the reconciler reads. -/
structure CfRuleset where
  id : GoStr
  phase : GoStr
  rules : List CfRule
deriving DecidableEq

/-- `types.RuleDescription`: the marker locating the managed rule. -/
def RuleDescription : GoStr := gs "cf-switch:global"

/-- `types.BlockAction`. -/
def BlockAction : GoStr := gs "block"

/-- `types.HTTPRequestFirewallCustomPhase`. -/
def HTTPRequestFirewallCustomPhase : GoStr := gs "http_request_firewall_custom"

/-- Model of `FindRuleByDescription`
(`internal/cloudflare/client.go:218-225`): first rule in slice order
whose description matches exactly. -/
def FindRuleByDescription (ruleset : CfRuleset) (description : GoStr) :
    Option CfRule :=
  ruleset.rules.find? (fun r => r.description = description)

/-- Typed failures of the Cloudflare client, mirroring the distinct
error returns of `internal/cloudflare/client.go`:
`ErrEntrypointNotFound`, a failed `makeRequest`, an unexpected HTTP
status, a body that does not decode, and a `success=false` envelope. -/
inductive CfError where
  | entrypointNotFound
  | requestFailed (msg : GoStr)
  | unexpectedStatus (code : Nat)
  | decodeFailed
  | apiError (msgs : List GoStr)
deriving DecidableEq

/-- The error text each `CfError` renders to when wrapped with `%w`
or `%v` into a reconciler error message. -/
def cfErrorMsg : CfError → GoStr
  | .entrypointNotFound => gs "entrypoint ruleset not found"
  | .requestFailed msg => gs "request failed: " ++ msg
  | .unexpectedStatus code => gs "unexpected status code: " ++ gs (toString code)
  | .decodeFailed => gs "failed to decode response"
  | .apiError _ => gs "API error"

/-- The Cloudflare response envelope
(`types.CloudflareAPIResponse`), with the `result` already decoded into
its target type (Go unmarshals into a zero value, so a decoded envelope
always carries a value). -/
structure Envelope (α : Type) where
  success : Bool
  errors : List GoStr
  result : α
deriving DecidableEq

/-- What one call through `makeRequest` plus body decoding yields:
either `makeRequest` returned an error, or a response with a status
code and a body (`none` when the body fails to decode). -/
inductive HttpOutcome (α : Type) where
  | fail (msg : GoStr)
  | resp (status : Nat) (body : Option (Envelope α))
deriving DecidableEq

/-- Model of `GetEntrypointRuleset`
(`internal/cloudflare/client.go:51-89`): a 404 becomes the
distinguished `ErrEntrypointNotFound` error; any other non-200 status,
decode failure or `success=false` envelope is an error; a decoded
successful envelope yields the ruleset.  The `Option` result records
that the Go function returns a `*CloudflareRuleset`: note it never
returns `(nil, nil)` — the value is `some` on every success path. -/
def GetEntrypointRuleset (o : HttpOutcome CfRuleset) :
    Except CfError (Option CfRuleset) :=
  match o with
  | .fail msg => .error (.requestFailed msg)
  | .resp status body =>
    if status = 404 then .error .entrypointNotFound
    else if status ≠ 200 then .error (.unexpectedStatus status)
    else
      match body with
      | none => .error .decodeFailed
      | some env =>
        if env.success = false then .error (.apiError env.errors)
        else .ok (some env.result)

/-- The sparse `updates` map sent by `UpdateRule`
(`map[string]interface\x7b\x7d` in Go): a key is present exactly when the
corresponding field is `some`.  The reconciler only ever puts
`"expression"` and `"enabled"` keys in this map. -/
structure PatchFields where
  expression : Option GoStr
  enabled : Option Bool
deriving DecidableEq

/-- One remote call issued by the reconciler, with its payload. -/
inductive RemoteCall where
  | getEntrypoint (zoneID phase : GoStr)
  | createEntrypoint (zoneID phase : GoStr)
  | addRule (zoneID rulesetID : GoStr) (rule : CfRule)
  | updateRule (zoneID rulesetID ruleID : GoStr) (updates : PatchFields)
deriving DecidableEq

/-- The remote environment for one reconciler operation: the outcome of
the entrypoint GET at the HTTP level (needed to model the 404 branch),
and the client-level results of the three mutating calls. -/
structure Env where
  getEntrypointHttp : HttpOutcome CfRuleset
  createEntrypointResp : Except CfError CfRuleset
  addRuleResp : Except CfError CfRule
  updateRuleResp : Except CfError CfRule

/-- Model of `types.Config`, restricted to the fields the reconciler
reads. -/
structure Config where
  cloudflareZoneID : GoStr
  destHostnames : List GoStr
  cfRuleDefaultEnabled : Bool
deriving DecidableEq

/-- Model of `types.Rule` (`pkg/types/types.go:34-42`): the cached
in-memory representation of the managed rule. -/
structure Rule where
  id : GoStr
  enabled : Bool
  expression : GoStr
  hostnames : List GoStr
  description : GoStr
  version : Int
deriving DecidableEq

/-- The mutable state of a `Reconciler`
(`internal/reconcile/reconciler.go:15-24`): the cached rule (nil before
the first successful pass) and the cached ruleset ID (Go zero value is
the empty string). -/
structure RState where
  currentRule : Option Rule
  rulesetID : GoStr
deriving DecidableEq

/-- The state of a freshly constructed reconciler (`NewReconciler`). -/
def initialRState : RState := { currentRule := none, rulesetID := [] }

/-- Model of `ensureEntrypointRuleset`
(`internal/reconcile/reconciler.go:188-211`): any error from
`GetEntrypointRuleset` — including the distinguished not-found error —
is wrapped and propagated; a non-nil ruleset is returned; only a
`(nil, nil)` client return (which never happens) would reach the
creation branch. -/
def ensureEntrypointRuleset (env : Env) (cfg : Config) :
    Except GoStr CfRuleset × List RemoteCall :=
  let getCall := RemoteCall.getEntrypoint cfg.cloudflareZoneID
    HTTPRequestFirewallCustomPhase
  match GetEntrypointRuleset env.getEntrypointHttp with
  | .error e =>
    (.error (gs "failed to get entrypoint ruleset: " ++ cfErrorMsg e), [getCall])
  | .ok (some ruleset) => (.ok ruleset, [getCall])
  | .ok none =>
    let createCall := RemoteCall.createEntrypoint cfg.cloudflareZoneID
      HTTPRequestFirewallCustomPhase
    match env.createEntrypointResp with
    | .error e =>
      (.error (gs "failed to create entrypoint ruleset: " ++ cfErrorMsg e),
        [getCall, createCall])
    | .ok ruleset => (.ok ruleset, [getCall, createCall])

/-- Model of `ensureRule` (`internal/reconcile/reconciler.go:214-305`):
look up the managed rule by its description marker; if absent, create
it with the desired expression and the configured default-enabled flag;
if present, patch only the `expression` field when it differs from the
desired one, otherwise cache the remote-reported rule as-is.  Returns
the outcome, the updated state and the remote calls issued. -/
def ensureRule (env : Env) (cfg : Config) (st : RState)
    (ruleset : CfRuleset) : Except GoStr Unit × RState × List RemoteCall :=
  let existingRule := FindRuleByDescription ruleset RuleDescription
  let expectedExpression := BuildExpression cfg.destHostnames
  match existingRule with
  | none =>
    let rule : CfRule :=
      { id := [], action := BlockAction, expression := expectedExpression,
        description := RuleDescription, enabled := cfg.cfRuleDefaultEnabled,
        version := 0 }
    let call := RemoteCall.addRule cfg.cloudflareZoneID ruleset.id rule
    match env.addRuleResp with
    | .error e => (.error (gs "failed to create rule: " ++ cfErrorMsg e), st, [call])
    | .ok createdRule =>
      let cached : Rule :=
        { id := createdRule.id, enabled := createdRule.enabled,
          expression := createdRule.expression,
          hostnames := cfg.destHostnames,
          description := createdRule.description,
          version := createdRule.version }
      (.ok (), { st with currentRule := some cached }, [call])
  | some existing =>
    if existing.expression ≠ expectedExpression then
      let call := RemoteCall.updateRule cfg.cloudflareZoneID ruleset.id
        existing.id { expression := some expectedExpression, enabled := none }
      match env.updateRuleResp with
      | .error e => (.error (gs "failed to update rule: " ++ cfErrorMsg e), st, [call])
      | .ok updatedRule =>
        let cached : Rule :=
          { id := updatedRule.id, enabled := updatedRule.enabled,
            expression := updatedRule.expression,
            hostnames := cfg.destHostnames,
            description := updatedRule.description,
            version := updatedRule.version }
        (.ok (), { st with currentRule := some cached }, [call])
    else
      let cached : Rule :=
        { id := existing.id, enabled := existing.enabled,
          expression := existing.expression,
          hostnames := cfg.destHostnames,
          description := existing.description,
          version := existing.version }
      (.ok (), { st with currentRule := some cached }, [])

/-- Model of `reconcileOnce` (`internal/reconcile/reconciler.go:165-185`):
resolve the entrypoint ruleset, commit its ID to the cache, then ensure
the managed rule.  Note the ruleset ID is stored *before* `ensureRule`
runs, so a failure in `ensureRule` leaves the new ruleset ID behind. -/
def reconcileOnce (env : Env) (cfg : Config) (st : RState) :
    Except GoStr Unit × RState × List RemoteCall :=
  match ensureEntrypointRuleset env cfg with
  | (.error e, calls) =>
    (.error (gs "failed to ensure entrypoint ruleset: " ++ e), st, calls)
  | (.ok ruleset, calls) =>
    let st1 := { st with rulesetID := ruleset.id }
    match ensureRule env cfg st1 ruleset with
    | (.error e, st2, calls2) =>
      (.error (gs "failed to ensure rule: " ++ e), st2, calls ++ calls2)
    | (.ok _, st2, calls2) => (.ok (), st2, calls ++ calls2)

/-- Model of `ToggleRule` (`internal/reconcile/reconciler.go:70-98`):
requires a cached rule and ruleset ID; sends a partial update carrying
only `enabled`; on success updates only `enabled` and `version` in the
cache and returns a copy of the cached rule. -/
def ToggleRule (env : Env) (cfg : Config) (st : RState) (enabled : Bool) :
    Except GoStr Rule × RState × List RemoteCall :=
  match st.currentRule, decide (st.rulesetID = []) with
  | none, _ => (.error (gs "rule not initialized"), st, [])
  | some _, true => (.error (gs "rule not initialized"), st, [])
  | some cur, false =>
    let updates : PatchFields := { expression := none, enabled := some enabled }
    let call := RemoteCall.updateRule cfg.cloudflareZoneID st.rulesetID
      cur.id updates
    match env.updateRuleResp with
    | .error e => (.error (gs "failed to update rule: " ++ cfErrorMsg e), st, [call])
    | .ok updatedRule =>
      let newRule := { cur with enabled := updatedRule.enabled,
                                version := updatedRule.version }
      (.ok newRule, { st with currentRule := some newRule }, [call])

/-- Model of `UpdateHosts` (`internal/reconcile/reconciler.go:101-140`):
requires a cached rule and ruleset ID; normalizes
`fmt.Sprintf("%v", hostnames)` through `ParseHostnames`; rejects an
empty normalized result; sends a partial update carrying only
`expression`; on success updates `expression`, `hostnames` and
`version` in the cache and returns a copy. -/
def UpdateHosts (env : Env) (cfg : Config) (st : RState)
    (hostnames : List GoStr) : Except GoStr Rule × RState × List RemoteCall :=
  match st.currentRule, decide (st.rulesetID = []) with
  | none, _ => (.error (gs "rule not initialized"), st, [])
  | some _, true => (.error (gs "rule not initialized"), st, [])
  | some cur, false =>
    let normalizedHosts := ParseHostnames (goSprintfV hostnames)
    if normalizedHosts = [] then
      (.error (gs "no valid hostnames provided"), st, [])
    else
      let expression := BuildExpression normalizedHosts
      let updates : PatchFields := { expression := some expression, enabled := none }
      let call := RemoteCall.updateRule cfg.cloudflareZoneID st.rulesetID
        cur.id updates
      match env.updateRuleResp with
      | .error e =>
        (.error (gs "failed to update rule expression: " ++ cfErrorMsg e), st, [call])
      | .ok updatedRule =>
        let newRule := { cur with expression := updatedRule.expression,
                                  hostnames := normalizedHosts,
                                  version := updatedRule.version }
        (.ok newRule, { st with currentRule := some newRule }, [call])

/-!
Memory model for `GetCurrentRule`.  In Go, `rule := *r.currentRule`
copies the `Rule` struct, but the `Hostnames []string` field is a slice
header: the copy shares the backing array with the cached rule.  To
state claims about mutations through the returned value, slices are
modelled as references into a heap of backing arrays.
-/

/-- A Go slice header, reduced to a reference to its backing array. -/
structure SliceRef where
  ref : Nat
deriving DecidableEq

/-- The cached `types.Rule` as it sits in memory: same fields as `Rule`,
but `hostnames` is a slice reference. -/
structure MemRule where
  id : GoStr
  enabled : Bool
  expression : GoStr
  hostnames : SliceRef
  description : GoStr
  version : Int
deriving DecidableEq

/-- A heap of slice backing arrays, indexed by `SliceRef.ref`. -/
structure Heap where
  arrays : List (List GoStr)
deriving DecidableEq

/-- Read a whole backing array. -/
def readSlice (h : Heap) (sl : SliceRef) : List GoStr :=
  h.arrays.getD sl.ref []

/-- Write element `i` of the backing array of `sl` (the effect of the Go
statement `slice[i] = v`). -/
def writeSlice (h : Heap) (sl : SliceRef) (i : Nat) (v : GoStr) : Heap :=
  ⟨h.arrays.set sl.ref ((h.arrays.getD sl.ref []).set i v)⟩

/-- The reconciler state in the memory model: the cached rule (as a
struct holding a slice reference) plus the heap. -/
structure MemState where
  currentRule : Option MemRule
  heap : Heap
deriving DecidableEq

/-- Model of `GetCurrentRule` (`internal/reconcile/reconciler.go:56-67`):
error when no rule is cached; otherwise `rule := *r.currentRule`
returns a copy of the struct — whose `hostnames` field is the same
slice reference as the cached one.  The call performs no remote call
and never modifies the state (it only read-locks). -/
def GetCurrentRule (st : MemState) : Except GoStr MemRule :=
  match st.currentRule with
  | none => .error (gs "no rule available")
  | some r => .ok r

/-- The hostnames a caller of `GetCurrentRule` observes: the contents of
the backing array behind the cached rule's `hostnames` slice. -/
def observedHostnames (st : MemState) : Option (List GoStr) :=
  st.currentRule.map (fun r => readSlice st.heap r.hostnames)

/-!
Concurrency model.  The shared mutable state of a `Reconciler` is
guarded by one `sync.RWMutex`.  `ToggleRule` and `UpdateHosts` hold the
write lock from entry to return — across their remote call
(`reconciler.go:71-72, 102-103`).  `reconcileOnce` does *not*: it calls
the remote API with no lock held and takes the lock only around the two
cache stores (`reconciler.go:174-176, 235-244, 273-282, 290-299`).
Each operation is modelled as a list of atomic actions; a scheduler
interleaves two threads, and a schedule is valid when every lock action
respects the mutex.  The remote rule is reduced to its `enabled` flag
and an abstract expression value (a `Nat`), which is all the claims
need.
-/

/-- Atomic actions of the reconciler operations.  `remoteGet` models
the unlocked remote read a reconcile pass performs;
`remotePatchEnabled` / `remotePatchExpr` model `UpdateRule` calls that
patch one field and return the updated rule; the `cacheWrite*` actions
model the stores into the cached rule. -/
inductive CAct where
  | lock
  | unlock
  | remoteGet
  | remotePatchEnabled (b : Bool)
  | remotePatchExpr (n : Nat)
  | cacheWriteRule
  | cacheWriteEnabled
  | cacheWriteExpr
deriving DecidableEq

/-- Shared state of the two threads: the mutex owner (`false` and
`true` name the two threads), the remote rule, the cached rule, and
each thread's local copy of the last rule it read from the remote
(`snapF` for thread `false`, `snapT` for thread `true`). -/
structure CShared where
  lockOwner : Option Bool
  remoteEnabled : Bool
  remoteExpr : Nat
  cacheEnabled : Bool
  cacheExpr : Nat
  snapF : Option (Bool × Nat)
  snapT : Option (Bool × Nat)
deriving DecidableEq

/-- Thread-local read. -/
def getSnap (t : Bool) (s : CShared) : Option (Bool × Nat) :=
  if t then s.snapT else s.snapF

/-- Thread-local write. -/
def setSnap (t : Bool) (v : Bool × Nat) (s : CShared) : CShared :=
  if t then { s with snapT := some v } else { s with snapF := some v }

/-- One atomic step of thread `t`.  `none` means the step cannot be
taken (the mutex is busy, or a cache write with no prior remote
response — the latter never occurs in the modelled programs). -/
def cstep (t : Bool) (a : CAct) (s : CShared) : Option CShared :=
  match a with
  | .lock => if s.lockOwner = none then some { s with lockOwner := some t } else none
  | .unlock => if s.lockOwner = some t then some { s with lockOwner := none } else none
  | .remoteGet => some (setSnap t (s.remoteEnabled, s.remoteExpr) s)
  | .remotePatchEnabled b =>
    some (setSnap t (b, s.remoteExpr) { s with remoteEnabled := b })
  | .remotePatchExpr n =>
    some (setSnap t (s.remoteEnabled, n) { s with remoteExpr := n })
  | .cacheWriteRule =>
    match getSnap t s with
    | some (e, x) => some { s with cacheEnabled := e, cacheExpr := x }
    | none => none
  | .cacheWriteEnabled =>
    match getSnap t s with
    | some (e, _) => some { s with cacheEnabled := e }
    | none => none
  | .cacheWriteExpr =>
    match getSnap t s with
    | some (_, x) => some { s with cacheExpr := x }
    | none => none

/-- `ToggleRule` as an action sequence (`reconciler.go:70-98`): take the
write lock, PATCH `enabled` remotely, store the response's `enabled`
into the cache, release. -/
def toggleRuleProg (b : Bool) : List CAct :=
  [.lock, .remotePatchEnabled b, .cacheWriteEnabled, .unlock]

/-- `UpdateHosts` as an action sequence (`reconciler.go:101-140`): take
the write lock, PATCH `expression` remotely, store the response's
`expression` into the cache, release. -/
def updateHostsProg (n : Nat) : List CAct :=
  [.lock, .remotePatchExpr n, .cacheWriteExpr, .unlock]

/-- A `reconcileOnce` pass on its no-drift path as an action sequence
(`reconciler.go:165-185, 288-302`): read the remote rule with *no* lock
held, then take the lock only to overwrite the cached rule with that
snapshot.  (The short critical section that stores `rulesetID` touches
no field modelled here and is elided.) -/
def reconcileOnceProg : List CAct :=
  [.remoteGet, .lock, .cacheWriteRule, .unlock]

/-- Run a schedule (a list of thread names) against the remaining
programs of the two threads.  `none` when a scheduled thread cannot
step or when the schedule does not run both programs to completion. -/
def crun : List Bool → List CAct → List CAct → CShared → Option CShared
  | [], [], [], s => some s
  | [], _ :: _, _, _ => none
  | [], [], _ :: _, _ => none
  | t :: rest, progF, progT, s =>
    match (if t then progT else progF) with
    | [] => none
    | a :: more =>
      match cstep t a s with
      | none => none
      | some s1 =>
        if t then crun rest progF more s1 else crun rest more progT s1

/-!
Concrete fixtures used by the theorems below.
-/

/-- A concrete configuration: zone `zone-1`, hostnames `a.com`,
`b.com`, rule disabled by default. -/
def cfgDemo : Config :=
  { cloudflareZoneID := gs "zone-1",
    destHostnames := [gs "a.com", gs "b.com"],
    cfRuleDefaultEnabled := false }

/-- A concrete remote ruleset with no rules in it. -/
def rulesetEmpty : CfRuleset :=
  { id := gs "rs-1", phase := HTTPRequestFirewallCustomPhase, rules := [] }

/-- A concrete cached rule matching `cfgDemo`. -/
def ruleCached : Rule :=
  { id := gs "rule-1", enabled := false,
    expression := BuildExpression [gs "a.com", gs "b.com"],
    hostnames := [gs "a.com", gs "b.com"],
    description := RuleDescription, version := 3 }

/-- An initialized reconciler state: `ruleCached` cached, ruleset ID
`rs-1`. -/
def stReady : RState := { currentRule := some ruleCached, rulesetID := gs "rs-1" }

/-- The environment in which the entrypoint GET comes back as HTTP 404:
the remote container for the configured zone and phase does not
exist. -/
def env404 : Env :=
  { getEntrypointHttp := .resp 404 none,
    createEntrypointResp := .ok rulesetEmpty,
    addRuleResp := .error (.requestFailed (gs "unused")),
    updateRuleResp := .error (.requestFailed (gs "unused")) }

/-- A successful response envelope carrying `rulesetEmpty`. -/
def envelopeRulesetEmpty : Envelope CfRuleset :=
  { success := true, errors := [], result := rulesetEmpty }

/-- An environment where the entrypoint GET succeeds (returning the
empty ruleset `rs-1`) but adding the managed rule fails remotely. -/
def envAddFails : Env :=
  { getEntrypointHttp := .resp 200 (some envelopeRulesetEmpty),
    createEntrypointResp := .error (.requestFailed (gs "unused")),
    addRuleResp := .error (.requestFailed (gs "boom")),
    updateRuleResp := .error (.requestFailed (gs "unused")) }

/-- The rule the remote PATCH responds with in `envPatchOK`. -/
def rulePatched : CfRule :=
  { id := gs "rule-1", action := BlockAction,
    expression := gs "http.host in \x7b\"[]\"\x7d",
    description := RuleDescription, enabled := false, version := 4 }

/-- An environment where `UpdateRule` succeeds, answering with
`rulePatched`. -/
def envPatchOK : Env :=
  { getEntrypointHttp := .resp 200 (some envelopeRulesetEmpty),
    createEntrypointResp := .error (.requestFailed (gs "unused")),
    addRuleResp := .error (.requestFailed (gs "unused")),
    updateRuleResp := .ok rulePatched }

/-- A cached rule in the memory model whose `hostnames` slice points at
backing array 0. -/
def memRule0 : MemRule :=
  { id := gs "rule-1", enabled := true,
    expression := BuildExpression [gs "a.com"],
    hostnames := { ref := 0 },
    description := RuleDescription, version := 1 }

/-- An initialized memory-model state: `memRule0` cached, its backing
array holding the single hostname `a.com`. -/
def memState0 : MemState :=
  { currentRule := some memRule0, heap := { arrays := [[gs "a.com"]] } }

/-- Initial shared state for the concurrency model: lock free, remote
rule disabled, cache in sync with the remote. -/
def cshared0 : CShared :=
  { lockOwner := none, remoteEnabled := false, remoteExpr := 0,
    cacheEnabled := false, cacheExpr := 0, snapF := none, snapT := none }

/-- The schedule in which a reconcile pass (thread `false`) reads the
remote rule, a full `ToggleRule true` (thread `true`) then runs to
completion, and the reconcile pass finally writes its stale snapshot
into the cache. -/
def lostToggleSched : List Bool :=
  [false, true, true, true, true, false, false, false]

/-- A remote rule whose expression already matches `cfgDemo`'s
hostnames. -/
def ruleMatching : CfRule :=
  { id := gs "rule-9", action := BlockAction,
    expression := BuildExpression [gs "a.com", gs "b.com"],
    description := RuleDescription, enabled := true, version := 7 }

/-- A remote ruleset containing `ruleMatching`. -/
def rulesetMatching : CfRuleset :=
  { id := gs "rs-1", phase := HTTPRequestFirewallCustomPhase,
    rules := [ruleMatching] }

/-- A successful envelope carrying `rulesetMatching`. -/
def envelopeMatching : Envelope CfRuleset :=
  { success := true, errors := [], result := rulesetMatching }

/-- An environment whose entrypoint GET returns `rulesetMatching` and
whose mutating calls all fail (they must not be reached). -/
def envMatching : Env :=
  { getEntrypointHttp := .resp 200 (some envelopeMatching),
    createEntrypointResp := .error (.requestFailed (gs "unused")),
    addRuleResp := .error (.requestFailed (gs "unused")),
    updateRuleResp := .error (.requestFailed (gs "unused")) }

/-!
Theorems.
-/

/-- C1.  The claim says a not-found entrypoint is treated as a
non-error branch that triggers creation.  The code does the opposite:
`GetEntrypointRuleset` turns HTTP 404 into the error
`ErrEntrypointNotFound` and never returns `(nil, nil)`, and
`ensureEntrypointRuleset` propagates every error, so on a 404 the pass
fails with an error, issues no `CreateEntrypointRuleset` call, and
leaves the state untouched — the creation branch is unreachable.  (The
client's own test expects 404 to yield a nil ruleset with a nil error,
which is what would make the creation branch live.) -/
theorem C1_notFound_propagates_error_and_never_creates :
    (∀ o : HttpOutcome CfRuleset, GetEntrypointRuleset o ≠ .ok none) ∧
    (reconcileOnce env404 cfgDemo initialRState).2.1 = initialRState ∧
    (reconcileOnce env404 cfgDemo initialRState).2.2 =
      [RemoteCall.getEntrypoint (gs "zone-1") HTTPRequestFirewallCustomPhase] ∧
    (reconcileOnce env404 cfgDemo initialRState).1 =
      .error (gs "failed to ensure entrypoint ruleset: failed to get entrypoint ruleset: entrypoint ruleset not found") := by
  refine ⟨?_, by decide, by decide, by decide⟩
  intro o
  cases o with
  | fail msg => simp [GetEntrypointRuleset]
  | resp status body =>
    rcases body with _ | env
    all_goals
      simp only [GetEntrypointRuleset]
      split_ifs <;> simp

/-- C2.  The claim says `UpdateHosts` normalizes the input set and
rejects an empty normalized result without a remote call.  In the code,
`ParseHostnames(fmt.Sprintf("%v", hostnames))` receives the Go
rendering `[h1 h2 ...]` of the slice — bracketed and space-separated,
with no commas — so the whole list collapses into one bogus hostname:
the empty list becomes the non-empty hostname `[]` (the emptiness guard
is dead and a remote PATCH for `http.host in \x7b"[]"\x7d` is issued),
and `[a.com, b.com]` becomes the single hostname `[a.com b.com]`. -/
theorem C2_sprintf_percent_v_breaks_normalization :
    ParseHostnames (goSprintfV []) = [gs "[]"] ∧
    ParseHostnames (goSprintfV [gs "a.com", gs "b.com"]) = [gs "[a.com b.com]"] ∧
    (UpdateHosts envPatchOK cfgDemo stReady []).1 ≠
      .error (gs "no valid hostnames provided") ∧
    (UpdateHosts envPatchOK cfgDemo stReady []).2.2 =
      [RemoteCall.updateRule (gs "zone-1") (gs "rs-1") (gs "rule-1")
        { expression := some (gs "http.host in \x7b\"[]\"\x7d"), enabled := none }] ∧
    (UpdateHosts envPatchOK cfgDemo stReady
        [gs "a.com", gs "b.com"]).2.1.currentRule =
      some { ruleCached with expression := gs "http.host in \x7b\"[]\"\x7d",
                             hostnames := [gs "[a.com b.com]"], version := 4 } := by
  refine ⟨by decide, by decide, by decide, by decide, by decide⟩

/-- C3, counterexample.  The claim says a failing `ReconcileOnce`
leaves the entire cached state — cached Rule *and* cached ruleset ID —
exactly as before.  Against `envAddFails` (entrypoint GET succeeds with
ruleset `rs-1`, rule creation fails), `reconcileOnce` returns an error
yet the cached ruleset ID has changed from `""` to `rs-1`. -/
theorem C3_counterexample_rulesetID_updated_on_failure :
    (reconcileOnce envAddFails cfgDemo initialRState).1 =
      .error (gs "failed to ensure rule: failed to create rule: request failed: boom") ∧
    (reconcileOnce envAddFails cfgDemo initialRState).2.1 ≠ initialRState ∧
    (reconcileOnce envAddFails cfgDemo initialRState).2.1.rulesetID = gs "rs-1" := by
  refine ⟨by decide, by decide, by decide⟩

/-- C4, counterexample.  The claim says that when the maximum attempt
count is exhausted the call fails with the distinguished rate-limited
error, never a successful-looking response.  With every attempt
answering 429 with the valid hint `30`, the loop sleeps 30s three times
and then falls out of its range, returning the final 429 response with
a nil error — not the distinguished error. -/
theorem C4_counterexample_exhaustion_returns_response :
    makeRequest (fun _ => .response 429 (some (gs "30"))) =
      ([30, 30, 30], .respNoError 429) ∧
    MRResult.respNoError 429 ≠ MRResult.rateLimitedGiveUp := by
  refine ⟨by decide, by decide⟩

/-- C5, counterexample.  The claim says mutating the returned value —
including its `Hostnames` list — cannot affect what later
`GetCurrentRule` calls observe.  The Go copy `rule := *r.currentRule`
shares the `Hostnames` backing array, so writing index 0 through the
returned value's slice changes the hostnames every subsequent call
observes from `a.com` to `evil.com`. -/
theorem C5_counterexample_hostnames_backing_array_shared :
    GetCurrentRule memState0 = .ok memRule0 ∧
    observedHostnames memState0 = some [gs "a.com"] ∧
    GetCurrentRule { memState0 with
        heap := writeSlice memState0.heap memRule0.hostnames 0 (gs "evil.com") } =
      .ok memRule0 ∧
    observedHostnames { memState0 with
        heap := writeSlice memState0.heap memRule0.hostnames 0 (gs "evil.com") } =
      some [gs "evil.com"] := by
  refine ⟨by decide, by decide, by decide, by decide⟩

/-- C7, counterexample.  The claim says all writes are totally
serialized, each holding the exclusive lock across its remote call, so
no two writes interleave.  `reconcileOnce` performs its remote read
with no lock held; the schedule `lostToggleSched` is a valid execution
(every mutex step legal) in which a complete `ToggleRule true` runs
between the reconcile pass's remote read and its cache write: the two
writes interleave and the pass overwrites the cache with its stale
snapshot, ending with remote `enabled = true` but cache
`enabled = false`. -/
theorem C7_counterexample_reconcile_not_serialized :
    crun lostToggleSched reconcileOnceProg (toggleRuleProg true) cshared0 =
      some { lockOwner := none, remoteEnabled := true, remoteExpr := 0,
             cacheEnabled := false, cacheExpr := 0,
             snapF := some (false, 0), snapT := some (true, 0) } := by
  decide

/-- C8.  `FlexibleInt` decoding: a JSON integer literal decodes to
itself (the int64 range check is Go's own), `null` decodes to 0, a JSON
string decodes through `strconv.Atoi` — so string-encoded integers
succeed and non-numeric strings fail — and every other JSON shape
(booleans, non-integer numbers, arrays, objects) is a decode error; in
particular `123`, `"456"`, `null` give `123`, `456`, `0`, and `"abc"`,
`true` and floating values give decode errors. -/
theorem C8_flexible_version_decoding :
    (∀ n : Int, flexibleIntUnmarshal (.jint n) =
      if int64InRange n then .ok n
      else .error (gs "version must be either int or string")) ∧
    flexibleIntUnmarshal .jnull = .ok 0 ∧
    (∀ s : GoStr, flexibleIntUnmarshal (.jstr s) =
      match goAtoi s with
      | some n => .ok n
      | none => .error (gs "version string is not a valid integer")) ∧
    (∀ b : Bool, flexibleIntUnmarshal (.jbool b) =
      .error (gs "version must be either int or string")) ∧
    flexibleIntUnmarshal .jfloat =
      .error (gs "version must be either int or string") ∧
    flexibleIntUnmarshal .jarr =
      .error (gs "version must be either int or string") ∧
    flexibleIntUnmarshal .jobj =
      .error (gs "version must be either int or string") ∧
    flexibleIntUnmarshal (.jint 123) = .ok 123 ∧
    flexibleIntUnmarshal (.jstr (gs "456")) = .ok 456 ∧
    flexibleIntUnmarshal (.jstr (gs "abc")) =
      .error (gs "version string is not a valid integer") ∧
    flexibleIntUnmarshal (.jbool true) =
      .error (gs "version must be either int or string") := by
  refine ⟨?_, by decide, ?_, ?_, by decide, by decide, by decide,
    by decide, by decide, by decide, by decide⟩
  · intro n
    simp only [flexibleIntUnmarshal, jsonToInt, jsonToStr]
    by_cases h : int64InRange n = true
    · simp [h]
    · simp [h]
  · intro s
    simp [flexibleIntUnmarshal, jsonToInt, jsonToStr]
  · intro b
    cases b <;> simp [flexibleIntUnmarshal, jsonToInt, jsonToStr]

/-- Helper: a failing `ensureRule` returns the state it was given. -/
theorem ensureRule_error_state (env : Env) (cfg : Config) (st : RState)
    (ruleset : CfRuleset) (e : GoStr) (st2 : RState) (calls : List RemoteCall)
    (h : ensureRule env cfg st ruleset = (.error e, st2, calls)) : st2 = st := by
  simp only [ensureRule] at h
  repeat' split at h
  all_goals simp_all

/-- Helper: when the entrypoint GET succeeds, `ensureEntrypointRuleset`
returns the fetched ruleset and issues exactly the GET. -/
theorem ensureEntrypointRuleset_ok (env : Env) (cfg : Config)
    (ruleset : CfRuleset)
    (hget : GetEntrypointRuleset env.getEntrypointHttp = .ok (some ruleset)) :
    ensureEntrypointRuleset env cfg = (.ok ruleset,
      [.getEntrypoint cfg.cloudflareZoneID HTTPRequestFirewallCustomPhase]) := by
  unfold ensureEntrypointRuleset
  rw [hget]

/-- C3, amended.  A failing `ToggleRule` or `UpdateHosts` leaves the
cached state exactly as it was; a failing `ReconcileOnce` leaves the
cached Rule unchanged (though it may have committed a new ruleset ID,
per the counterexample). -/
theorem C3_amended_failed_write_leaves_rule_untouched
    (env : Env) (cfg : Config) (st : RState) (b : Bool)
    (hosts : List GoStr) (e1 e2 e3 : GoStr) :
    ((ToggleRule env cfg st b).1 = .error e1 → (ToggleRule env cfg st b).2.1 = st) ∧
    ((UpdateHosts env cfg st hosts).1 = .error e2 →
      (UpdateHosts env cfg st hosts).2.1 = st) ∧
    ((reconcileOnce env cfg st).1 = .error e3 →
      (reconcileOnce env cfg st).2.1.currentRule = st.currentRule) := by
  refine ⟨?_, ?_, ?_⟩
  · intro h
    rcases ht : ToggleRule env cfg st b with ⟨res, st2, calls⟩
    rw [ht] at h
    simp only at h ⊢
    simp only [ToggleRule] at ht
    repeat' split at ht
    all_goals simp_all
  · intro h
    rcases hu : UpdateHosts env cfg st hosts with ⟨res, st2, calls⟩
    rw [hu] at h
    simp only at h ⊢
    simp only [UpdateHosts] at hu
    repeat' split at hu
    all_goals simp_all
  · intro h
    rcases hro : reconcileOnce env cfg st with ⟨res, st2, calls⟩
    rw [hro] at h
    simp only at h ⊢
    unfold reconcileOnce at hro
    rcases hg : ensureEntrypointRuleset env cfg with ⟨r1, calls1⟩
    rw [hg] at hro
    rcases r1 with e1 | ruleset
    · simp only [Prod.mk.injEq] at hro
      rw [hro.2.1]
    · simp only [] at hro
      rcases hr : ensureRule env cfg { st with rulesetID := ruleset.id } ruleset
        with ⟨r2, st3, calls2⟩
      rw [hr] at hro
      rcases r2 with e2 | u
      · simp only [Prod.mk.injEq] at hro
        have hst3 := ensureRule_error_state env cfg
          { st with rulesetID := ruleset.id } ruleset e2 st3 calls2 hr
        rw [← hro.2.1, hst3]
      · simp only [Prod.mk.injEq] at hro
        rw [← hro.1] at h
        exact absurd h (by simp)

/-- Witness for the amended C3: concrete failing calls against an
initialized state leave the cached rule (and, for toggle/update, the
whole state) untouched. -/
theorem C3_amended_witness :
    (ToggleRule envAddFails cfgDemo stReady true).2.1 = stReady ∧
    (UpdateHosts envAddFails cfgDemo stReady [gs "a.com"]).2.1 = stReady ∧
    (reconcileOnce envAddFails cfgDemo stReady).2.1.currentRule =
      stReady.currentRule := by
  refine ⟨?_, ?_, ?_⟩
  · exact (C3_amended_failed_write_leaves_rule_untouched envAddFails cfgDemo
      stReady true [gs "a.com"]
      (gs "failed to update rule: request failed: unused")
      (gs "failed to update rule expression: request failed: unused")
      (gs "failed to ensure rule: failed to create rule: request failed: boom")).1
      (by decide)
  · exact (C3_amended_failed_write_leaves_rule_untouched envAddFails cfgDemo
      stReady true [gs "a.com"]
      (gs "failed to update rule: request failed: unused")
      (gs "failed to update rule expression: request failed: unused")
      (gs "failed to ensure rule: failed to create rule: request failed: boom")).2.1
      (by decide)
  · exact (C3_amended_failed_write_leaves_rule_untouched envAddFails cfgDemo
      stReady true [gs "a.com"]
      (gs "failed to update rule: request failed: unused")
      (gs "failed to update rule expression: request failed: unused")
      (gs "failed to ensure rule: failed to create rule: request failed: boom")).2.2
      (by decide)

/-- C5, amended.  `GetCurrentRule` before initialization returns the
uninitialized error; afterwards it returns the cached struct as a copy
whose `hostnames` field is the same slice reference, so a write through
the returned value's `Hostnames` slice is observed by subsequent
calls.  (The call itself never mutates the state: it is a pure function
of it.) -/
theorem C5_amended_shallow_copy_shares_hostnames (st : MemState) :
    (st.currentRule = none →
      GetCurrentRule st = .error (gs "no rule available")) ∧
    (∀ r : MemRule, st.currentRule = some r →
      GetCurrentRule st = .ok r ∧
      ∀ i v, observedHostnames
          { st with heap := writeSlice st.heap r.hostnames i v } =
        some ((readSlice st.heap r.hostnames).set i v)) := by
  constructor
  · intro h
    unfold GetCurrentRule
    rw [h]
  · intro r h
    refine ⟨by unfold GetCurrentRule; rw [h], ?_⟩
    intro i v
    simp only [observedHostnames, h, Option.map_some', Option.some.injEq]
    simp only [readSlice, writeSlice]
    by_cases hlt : r.hostnames.ref < st.heap.arrays.length
    · have hlen : r.hostnames.ref <
          (st.heap.arrays.set r.hostnames.ref
            ((st.heap.arrays.getD r.hostnames.ref []).set i v)).length := by
        simpa using hlt
      rw [List.getD_eq_getElem _ _ hlen, List.getElem_set_self]
    · have hg : st.heap.arrays.getD r.hostnames.ref [] = [] :=
        List.getD_eq_default _ _ (Nat.le_of_not_lt hlt)
      have hs : st.heap.arrays.set r.hostnames.ref
          ((st.heap.arrays.getD r.hostnames.ref []).set i v) =
          st.heap.arrays := List.set_eq_of_length_le (Nat.le_of_not_lt hlt)
      rw [hs, hg]
      simp [hg]

/-- Witness for the amended C5 at the concrete initialized state
`memState0`. -/
theorem C5_amended_witness :
    GetCurrentRule memState0 = .ok memRule0 ∧
    observedHostnames
        { memState0 with
          heap := writeSlice memState0.heap memRule0.hostnames 0 (gs "x.org") } =
      some ((readSlice memState0.heap memRule0.hostnames).set 0 (gs "x.org")) := by
  refine ⟨((C5_amended_shallow_copy_shares_hostnames memState0).2 memRule0
    (by decide)).1, ?_⟩
  exact ((C5_amended_shallow_copy_shares_hostnames memState0).2 memRule0
    (by decide)).2 0 (gs "x.org")

/-- C6.  When the entrypoint GET succeeds and the managed rule exists
remotely, a reconcile pass patches if and only if the remote-reported
expression differs from the one built from the configured hostnames;
the patch is a single `UpdateRule` call whose sparse update carries
exactly the `expression` field (never `enabled`); when the expressions
are identical the pass issues zero patch calls, succeeds, and caches
the remote-reported rule as-is, adopting its `enabled` value. -/
theorem C6_patch_iff_expression_differs
    (env : Env) (cfg : Config) (st : RState) (ruleset : CfRuleset)
    (ex : CfRule)
    (hget : GetEntrypointRuleset env.getEntrypointHttp = .ok (some ruleset))
    (hfind : FindRuleByDescription ruleset RuleDescription = some ex) :
    (ex.expression ≠ BuildExpression cfg.destHostnames →
      (reconcileOnce env cfg st).2.2 =
        [RemoteCall.getEntrypoint cfg.cloudflareZoneID
           HTTPRequestFirewallCustomPhase,
         RemoteCall.updateRule cfg.cloudflareZoneID ruleset.id ex.id
           { expression := some (BuildExpression cfg.destHostnames),
             enabled := none }]) ∧
    (ex.expression = BuildExpression cfg.destHostnames →
      (reconcileOnce env cfg st).2.2 =
        [RemoteCall.getEntrypoint cfg.cloudflareZoneID
           HTTPRequestFirewallCustomPhase] ∧
      (reconcileOnce env cfg st).1 = .ok () ∧
      (reconcileOnce env cfg st).2.1.currentRule = some
        { id := ex.id, enabled := ex.enabled, expression := ex.expression,
          hostnames := cfg.destHostnames, description := ex.description,
          version := ex.version }) := by
  unfold reconcileOnce
  rw [ensureEntrypointRuleset_ok env cfg ruleset hget]
  constructor
  · intro hne
    cases henv : env.updateRuleResp with
    | error e => simp [ensureRule, hfind, hne, henv]
    | ok updatedRule => simp [ensureRule, hfind, hne, henv]
  · intro heq
    simp [ensureRule, hfind, heq]

/-- Witness for C6: against a ruleset whose managed rule already has
the desired expression, a pass issues exactly the GET, succeeds, and
adopts the remote rule's enabled state. -/
theorem C6_witness :
    (reconcileOnce envMatching cfgDemo initialRState).2.2 =
      [RemoteCall.getEntrypoint (gs "zone-1") HTTPRequestFirewallCustomPhase] := by
  exact ((C6_patch_iff_expression_differs envMatching cfgDemo initialRState
    rulesetMatching ruleMatching (by decide) (by decide)).2 (by decide)).1

/-- Helper: every duration the retry loop ever sleeps is at most 60
seconds, provided the sleeps accumulated so far are. -/
theorem makeRequestLoop_sleeps_le (o : Nat → MRAttempt) :
    ∀ (fuel attempt : Nat) (sleeps : List Int) (last : Option Nat),
      attempt + fuel = maxRetries → (∀ x ∈ sleeps, x ≤ 60) →
      ∀ d ∈ (makeRequestLoop o fuel attempt sleeps last).1, d ≤ 60 := by
  intro fuel
  induction fuel with
  | zero =>
    intro attempt sleeps last _ hs d hd
    exact hs d hd
  | succ f ih =>
    intro attempt sleeps last hsum hs d hd
    simp only [makeRequestLoop] at hd
    cases ho : o attempt with
    | transportError msg =>
      rw [ho] at hd
      simp only [] at hd
      by_cases hat : attempt = maxRetries - 1
      · rw [if_pos hat] at hd
        exact hs d hd
      · rw [if_neg hat] at hd
        refine ih (attempt + 1) _ none (by omega) ?_ d hd
        intro x hx
        rcases List.mem_append.mp hx with hx | hx
        · exact hs x hx
        · have hax : attempt + 1 ≤ 3 := by
            have hmr : maxRetries = 3 := rfl
            omega
          simp only [List.mem_singleton] at hx
          subst hx
          rw [Int.ofNat_eq_coe]
          omega
    | response status retryAfter =>
      rw [ho] at hd
      simp only [] at hd
      by_cases h429 : status = 429
      · rw [if_pos h429] at hd
        cases retryAfter with
        | none => exact hs d hd
        | some hdr =>
          simp only [] at hd
          cases ha : goAtoi hdr with
          | none =>
            rw [ha] at hd
            exact hs d hd
          | some secs =>
            rw [ha] at hd
            simp only [] at hd
            by_cases hse : secs ≤ maxRetryWaitSeconds
            · rw [if_pos hse] at hd
              refine ih (attempt + 1) _ (some status) (by omega) ?_ d hd
              intro x hx
              rcases List.mem_append.mp hx with hx | hx
              · exact hs x hx
              · simp only [List.mem_singleton] at hx
                subst hx
                exact hse
            · rw [if_neg hse] at hd
              exact hs d hd
      · rw [if_neg h429] at hd
        exact hs d hd

/-- C4, amended.  The retry policy actually implemented: a non-429
response is returned at once with no sleep; a 429 whose hint is absent,
unparsable, or above the 60s ceiling fails immediately with the
distinguished rate-limited error, without sleeping; a 429 with a valid
hint sleeps exactly the hint and retries, and if the next response is
not a 429 it is returned after that single sleep; when all three
attempts answer 429 with valid hints, the client sleeps each hint and
then returns the final 429 response with no error (not the
distinguished error); three transport failures sleep 1s then 2s and end
in the generic after-retries error; and no sleep ever exceeds the 60s
ceiling. -/
theorem C4_amended_retry_policy :
    (∀ (o : Nat → MRAttempt) (s : Nat) (hdr : Option GoStr),
      o 0 = .response s hdr → s ≠ 429 →
      makeRequest o = ([], .respNoError s)) ∧
    (∀ o : Nat → MRAttempt, o 0 = .response 429 none →
      makeRequest o = ([], .rateLimitedGiveUp)) ∧
    (∀ (o : Nat → MRAttempt) (hdr : GoStr),
      o 0 = .response 429 (some hdr) → goAtoi hdr = none →
      makeRequest o = ([], .rateLimitedGiveUp)) ∧
    (∀ (o : Nat → MRAttempt) (hdr : GoStr) (secs : Int),
      o 0 = .response 429 (some hdr) → goAtoi hdr = some secs →
      maxRetryWaitSeconds < secs →
      makeRequest o = ([], .rateLimitedGiveUp)) ∧
    (∀ (o : Nat → MRAttempt) (hdr : GoStr) (secs : Int) (s : Nat)
        (h2 : Option GoStr),
      o 0 = .response 429 (some hdr) → goAtoi hdr = some secs →
      secs ≤ maxRetryWaitSeconds → o 1 = .response s h2 → s ≠ 429 →
      makeRequest o = ([secs], .respNoError s)) ∧
    (∀ (o : Nat → MRAttempt) (h0 h1 h2 : GoStr) (s0 s1 s2 : Int),
      o 0 = .response 429 (some h0) → goAtoi h0 = some s0 →
      s0 ≤ maxRetryWaitSeconds →
      o 1 = .response 429 (some h1) → goAtoi h1 = some s1 →
      s1 ≤ maxRetryWaitSeconds →
      o 2 = .response 429 (some h2) → goAtoi h2 = some s2 →
      s2 ≤ maxRetryWaitSeconds →
      makeRequest o = ([s0, s1, s2], .respNoError 429)) ∧
    (∀ (o : Nat → MRAttempt) (m0 m1 m2 : GoStr),
      o 0 = .transportError m0 → o 1 = .transportError m1 →
      o 2 = .transportError m2 →
      makeRequest o = ([1, 2], .failedAfterRetries m2)) ∧
    (∀ (o : Nat → MRAttempt) (d : Int), d ∈ (makeRequest o).1 → d ≤ 60) := by
  refine ⟨?_, ?_, ?_, ?_, ?_, ?_, ?_, ?_⟩
  · intro o s hdr e0 hs
    simp [makeRequest, makeRequestLoop, maxRetries, e0, hs]
  · intro o e0
    simp [makeRequest, makeRequestLoop, maxRetries, e0]
  · intro o hdr e0 ha
    simp [makeRequest, makeRequestLoop, maxRetries, e0, ha]
  · intro o hdr secs e0 ha hgt
    simp [makeRequest, makeRequestLoop, maxRetries, e0, ha, not_le.mpr hgt]
  · intro o hdr secs s h2 e0 ha hle e1 hs
    simp [makeRequest, makeRequestLoop, maxRetries, e0, ha, hle, e1, hs]
  · intro o h0 h1 h2 s0 s1 s2 e0 a0 l0 e1 a1 l1 e2 a2 l2
    simp [makeRequest, makeRequestLoop, maxRetries, e0, a0, l0, e1, a1, l1,
      e2, a2, l2]
  · intro o m0 m1 m2 e0 e1 e2
    simp [makeRequest, makeRequestLoop, maxRetries, e0, e1, e2]
  · intro o d hd
    exact makeRequestLoop_sleeps_le o maxRetries 0 [] none rfl
      (by intro x hx; simp at hx) d hd

/-- Witness for the amended C4, exercising each clause of the policy on
a concrete attempt sequence. -/
theorem C4_amended_retry_policy_witness :
    makeRequest (fun _ => .response 200 none) = ([], .respNoError 200) ∧
    makeRequest (fun _ => .response 429 none) = ([], .rateLimitedGiveUp) ∧
    makeRequest (fun _ => .response 429 (some (gs "soon"))) =
      ([], .rateLimitedGiveUp) ∧
    makeRequest (fun _ => .response 429 (some (gs "120"))) =
      ([], .rateLimitedGiveUp) ∧
    makeRequest (fun n => if n = 0 then .response 429 (some (gs "30"))
      else .response 200 none) = ([30], .respNoError 200) ∧
    makeRequest (fun _ => .response 429 (some (gs "25"))) =
      ([25, 25, 25], .respNoError 429) ∧
    makeRequest (fun _ => .transportError (gs "conn")) =
      ([1, 2], .failedAfterRetries (gs "conn")) ∧
    (30 : Int) ≤ 60 := by
  refine ⟨?_, ?_, ?_, ?_, ?_, ?_, ?_, ?_⟩
  · exact C4_amended_retry_policy.1 _ 200 none rfl (by decide)
  · exact C4_amended_retry_policy.2.1 _ rfl
  · exact C4_amended_retry_policy.2.2.1 _ (gs "soon") rfl (by decide)
  · exact C4_amended_retry_policy.2.2.2.1 _ (gs "120") 120 rfl (by decide)
      (by decide)
  · exact C4_amended_retry_policy.2.2.2.2.1 _ (gs "30") 30 200 none rfl
      (by decide) (by decide) rfl (by decide)
  · exact C4_amended_retry_policy.2.2.2.2.2.1 _ (gs "25") (gs "25") (gs "25")
      25 25 25 rfl (by decide) (by decide) rfl (by decide) (by decide) rfl
      (by decide) (by decide)
  · exact C4_amended_retry_policy.2.2.2.2.2.2.1 _ (gs "conn") (gs "conn")
      (gs "conn") rfl rfl rfl
  · exact C4_amended_retry_policy.2.2.2.2.2.2.2 (fun _ => .response 429
      (some (gs "30"))) 30 (by decide)

/-- C7, amended.  `ToggleRule` and `UpdateHosts` both hold the write
lock from before their remote call to after their cache write, so in
every valid complete interleaving of one `ToggleRule` (thread `false`)
with one `UpdateHosts` (thread `true`) starting from an unlocked state,
one operation runs to completion before the other starts: the only
valid schedules are the two serial ones.  (Per the counterexample, this
total serialization does not extend to `ReconcileOnce`, whose remote
read happens outside the lock.) -/
theorem C7_amended_toggle_and_update_serialized
    (b : Bool) (n : Nat) (sched : List Bool) (s0 sF : CShared)
    (hfree : s0.lockOwner = none)
    (hrun : crun sched (toggleRuleProg b) (updateHostsProg n) s0 = some sF) :
    sched = [false, false, false, false, true, true, true, true] ∨
    sched = [true, true, true, true, false, false, false, false] := by
  rcases sched with _ | ⟨t1, sched⟩
  · simp [crun, toggleRuleProg] at hrun
  cases t1 with
  | false =>
    left
    simp only [crun, cstep, toggleRuleProg, updateHostsProg, getSnap, setSnap,
      hfree, if_true, Bool.false_eq_true, if_false, reduceIte] at hrun
    rcases sched with _ | ⟨t2, sched⟩
    · simp [crun] at hrun
    cases t2 with
    | true => simp [crun, cstep, updateHostsProg] at hrun
    | false =>
    simp only [crun, cstep, getSnap, setSnap, Bool.false_eq_true, reduceIte] at hrun
    rcases sched with _ | ⟨t3, sched⟩
    · simp [crun] at hrun
    cases t3 with
    | true => simp [crun, cstep, updateHostsProg] at hrun
    | false =>
    simp only [crun, cstep, getSnap, setSnap, Bool.false_eq_true, reduceIte] at hrun
    rcases sched with _ | ⟨t4, sched⟩
    · simp [crun] at hrun
    cases t4 with
    | true => simp [crun, cstep, updateHostsProg] at hrun
    | false =>
    simp only [crun, cstep, getSnap, setSnap, Bool.false_eq_true, reduceIte] at hrun
    rcases sched with _ | ⟨t5, sched⟩
    · simp [crun] at hrun
    cases t5 with
    | false => simp [crun] at hrun
    | true =>
    simp only [crun, cstep, updateHostsProg, getSnap, setSnap,
      Bool.false_eq_true, reduceIte] at hrun
    rcases sched with _ | ⟨t6, sched⟩
    · simp [crun] at hrun
    cases t6 with
    | false => simp [crun] at hrun
    | true =>
    simp only [crun, cstep, getSnap, setSnap, Bool.false_eq_true, reduceIte] at hrun
    rcases sched with _ | ⟨t7, sched⟩
    · simp [crun] at hrun
    cases t7 with
    | false => simp [crun] at hrun
    | true =>
    simp only [crun, cstep, getSnap, setSnap, Bool.false_eq_true, reduceIte] at hrun
    rcases sched with _ | ⟨t8, sched⟩
    · simp [crun] at hrun
    cases t8 with
    | false => simp [crun] at hrun
    | true =>
    simp only [crun, cstep, getSnap, setSnap, Bool.false_eq_true, reduceIte] at hrun
    rcases sched with _ | ⟨t9, sched⟩
    · rfl
    · cases t9 <;> simp [crun] at hrun
  | true =>
    right
    simp only [crun, cstep, toggleRuleProg, updateHostsProg, getSnap, setSnap,
      hfree, if_true, Bool.false_eq_true, if_false, reduceIte] at hrun
    rcases sched with _ | ⟨t2, sched⟩
    · simp [crun] at hrun
    cases t2 with
    | false => simp [crun, cstep, toggleRuleProg] at hrun
    | true =>
    simp only [crun, cstep, getSnap, setSnap, Bool.false_eq_true, reduceIte] at hrun
    rcases sched with _ | ⟨t3, sched⟩
    · simp [crun] at hrun
    cases t3 with
    | false => simp [crun, cstep, toggleRuleProg] at hrun
    | true =>
    simp only [crun, cstep, getSnap, setSnap, Bool.false_eq_true, reduceIte] at hrun
    rcases sched with _ | ⟨t4, sched⟩
    · simp [crun] at hrun
    cases t4 with
    | false => simp [crun, cstep, toggleRuleProg] at hrun
    | true =>
    simp only [crun, cstep, getSnap, setSnap, Bool.false_eq_true, reduceIte] at hrun
    rcases sched with _ | ⟨t5, sched⟩
    · simp [crun] at hrun
    cases t5 with
    | true => simp [crun] at hrun
    | false =>
    simp only [crun, cstep, toggleRuleProg, getSnap, setSnap,
      Bool.false_eq_true, reduceIte] at hrun
    rcases sched with _ | ⟨t6, sched⟩
    · simp [crun] at hrun
    cases t6 with
    | true => simp [crun] at hrun
    | false =>
    simp only [crun, cstep, getSnap, setSnap, Bool.false_eq_true, reduceIte] at hrun
    rcases sched with _ | ⟨t7, sched⟩
    · simp [crun] at hrun
    cases t7 with
    | true => simp [crun] at hrun
    | false =>
    simp only [crun, cstep, getSnap, setSnap, Bool.false_eq_true, reduceIte] at hrun
    rcases sched with _ | ⟨t8, sched⟩
    · simp [crun] at hrun
    cases t8 with
    | true => simp [crun] at hrun
    | false =>
    simp only [crun, cstep, getSnap, setSnap, Bool.false_eq_true, reduceIte] at hrun
    rcases sched with _ | ⟨t9, sched⟩
    · rfl
    · cases t9 <;> simp [crun] at hrun

/-- Witness for the amended C7: the all-`false`-then-all-`true`
schedule is a valid complete run, and the theorem classifies it. -/
theorem C7_amended_witness :
    [false, false, false, false, true, true, true, true] =
      [false, false, false, false, true, true, true, true] ∨
    [false, false, false, false, true, true, true, true] =
      [true, true, true, true, false, false, false, false] := by
  exact C7_amended_toggle_and_update_serialized true 5
    [false, false, false, false, true, true, true, true] cshared0
    { lockOwner := none, remoteEnabled := true, remoteExpr := 5,
      cacheEnabled := true, cacheExpr := 5,
      snapF := some (true, 0), snapT := some (true, 5) }
    (by decide) (by decide)

/-- Whether `big` begins with `seg`. -/
def leadsWith : GoStr → GoStr → Bool
  | [], _ => true
  | _ :: _, [] => false
  | c :: cs, d :: ds => c = d && leadsWith cs ds

/-- Whether `seg` occurs contiguously (verbatim) inside `big`. -/
def hasSeg (seg : GoStr) : GoStr → Bool
  | [] => leadsWith seg []
  | c :: rest => leadsWith seg (c :: rest) || hasSeg seg rest

/-- Sortedness of a list of strings under `leStr`. -/
def StrSorted (l : List GoStr) : Prop := l.Pairwise (fun a c => leStr a c = true)

/-- `leStr` is total. -/
theorem leStr_total : ∀ a b : GoStr, leStr a b = true ∨ leStr b a = true
  | [], _ => .inl rfl
  | _ :: _, [] => .inr rfl
  | a :: as, b :: bs => by
    by_cases hab : a = b
    · subst hab
      simp only [leStr, if_pos rfl]
      exact leStr_total as bs
    · rcases lt_trichotomy a b with h | h | h
      · left
        simp only [leStr, if_neg hab]
        exact decide_eq_true h
      · exact absurd h hab
      · right
        simp only [leStr, if_neg (Ne.symm hab)]
        exact decide_eq_true h

/-- `leStr` is transitive. -/
theorem leStr_trans : ∀ a b c : GoStr,
    leStr a b = true → leStr b c = true → leStr a c = true
  | [], _, _, _, _ => rfl
  | _ :: _, [], _, h, _ => by simp [leStr] at h
  | _ :: _, _ :: _, [], _, h => by simp [leStr] at h
  | a :: as, b :: bs, c :: cs, h1, h2 => by
    simp only [leStr] at h1 h2 ⊢
    by_cases hab : a = b
    · subst hab
      rw [if_pos rfl] at h1
      by_cases hbc : a = c
      · subst hbc
        rw [if_pos rfl] at h2 ⊢
        exact leStr_trans as bs cs h1 h2
      · rw [if_neg hbc] at h2 ⊢
        exact h2
    · rw [if_neg hab] at h1
      have hlt1 : a < b := of_decide_eq_true h1
      by_cases hbc : b = c
      · subst hbc
        rw [if_neg hab]
        exact h1
      · rw [if_neg hbc] at h2
        have hlt2 : b < c := of_decide_eq_true h2
        have hac : a < c := lt_trans hlt1 hlt2
        rw [if_neg (ne_of_lt hac)]
        exact decide_eq_true hac

/-- `insertSorted` permutes its input. -/
theorem insertSorted_perm (x : GoStr) :
    ∀ ys, (insertSorted x ys).Perm (x :: ys)
  | [] => .refl _
  | y :: ys => by
    simp only [insertSorted]
    split
    · exact .refl _
    · exact ((insertSorted_perm x ys).cons y).trans (List.Perm.swap x y ys)

/-- `sortStrings` permutes its input. -/
theorem sortStrings_perm : ∀ xs, (sortStrings xs).Perm xs
  | [] => .refl _
  | x :: xs =>
    (insertSorted_perm x (sortStrings xs)).trans ((sortStrings_perm xs).cons x)

/-- `insertSorted` preserves sortedness. -/
theorem insertSorted_sorted (x : GoStr) :
    ∀ ys, StrSorted ys → StrSorted (insertSorted x ys)
  | [], _ => List.pairwise_singleton _ _
  | y :: ys, h => by
    simp only [insertSorted]
    split
    · rename_i hxy
      refine List.Pairwise.cons ?_ h
      intro z hz
      rcases List.mem_cons.mp hz with rfl | hz
      · exact hxy
      · exact leStr_trans x y z hxy (List.rel_of_pairwise_cons h hz)
    · rename_i hxy
      have hyx : leStr y x = true :=
        (leStr_total x y).resolve_left (by simpa using hxy)
      refine List.Pairwise.cons ?_ (insertSorted_sorted x ys h.of_cons)
      intro z hz
      rcases List.mem_cons.mp ((insertSorted_perm x ys).mem_iff.mp hz)
        with rfl | hz2
      · exact hyx
      · exact List.rel_of_pairwise_cons h hz2

/-- `sortStrings` sorts. -/
theorem sortStrings_sorted : ∀ xs, StrSorted (sortStrings xs)
  | [] => List.Pairwise.nil
  | x :: xs => insertSorted_sorted x _ (sortStrings_sorted xs)

/-- `sortStrings` fixes sorted lists. -/
theorem sortStrings_of_sorted : ∀ xs, StrSorted xs → sortStrings xs = xs
  | [], _ => rfl
  | x :: xs, h => by
    rw [sortStrings, sortStrings_of_sorted xs h.of_cons]
    cases xs with
    | nil => rfl
    | cons y ys =>
      have hxy : leStr x y = true :=
        List.rel_of_pairwise_cons h (List.mem_cons_self y ys)
      simp [insertSorted, hxy]

/-- `Char` order is code-point order. -/
theorem char_le_iff (a b : Char) : a ≤ b ↔ a.toNat ≤ b.toNat := Iff.rfl

/-- `Char.ofNat` inverts `toNat` below the surrogate range. -/
theorem charOfNat_toNat (n : Nat) (h : n < 55296) : (Char.ofNat n).toNat = n := by
  have hv : n.isValidChar := Or.inl h
  simp only [Char.ofNat, dif_pos hv, Char.toNat, Char.ofNatAux]
  rfl

/-- Lowercasing never produces an ASCII uppercase letter. -/
theorem goToLowerChar_not_upper (c : Char) :
    ¬('A' ≤ goToLowerChar c ∧ goToLowerChar c ≤ 'Z') := by
  unfold goToLowerChar
  split
  · rename_i h
    have h65 : 65 ≤ c.toNat := (char_le_iff 'A' c).mp h.1
    have h90 : c.toNat ≤ 90 := (char_le_iff c 'Z').mp h.2
    intro hcon
    have h2 := (char_le_iff _ 'Z').mp hcon.2
    rw [charOfNat_toNat (c.toNat + 32) (by omega)] at h2
    have hz : ('Z' : Char).toNat = 90 := rfl
    omega
  · rename_i h
    exact h

/-- `goToLowerChar` is idempotent. -/
theorem goToLowerChar_idem (c : Char) :
    goToLowerChar (goToLowerChar c) = goToLowerChar c := by
  have h := goToLowerChar_not_upper c
  rw [show goToLowerChar (goToLowerChar c) =
    if 'A' ≤ goToLowerChar c ∧ goToLowerChar c ≤ 'Z' then
      Char.ofNat ((goToLowerChar c).toNat + 32) else goToLowerChar c from rfl,
    if_neg h]

/-- Lowercasing maps only `','` to `','`. -/
theorem goToLowerChar_eq_comma (c : Char) (h : goToLowerChar c = ',') :
    c = ',' := by
  by_cases hc : 'A' ≤ c ∧ c ≤ 'Z'
  · exfalso
    rw [goToLowerChar, if_pos hc] at h
    have h65 : 65 ≤ c.toNat := (char_le_iff 'A' c).mp hc.1
    have h90 : c.toNat ≤ 90 := (char_le_iff c 'Z').mp hc.2
    have := congrArg Char.toNat h
    rw [charOfNat_toNat (c.toNat + 32) (by omega)] at this
    have hz : (',' : Char).toNat = 44 := rfl
    omega
  · rwa [goToLowerChar, if_neg hc] at h

/-- A string all of whose characters are fixed by `goToLowerChar` is
fixed by `goToLower`. -/
theorem goToLower_fixed_of (l : GoStr)
    (h : ∀ c ∈ l, goToLowerChar c = c) : goToLower l = l := by
  induction l with
  | nil => rfl
  | cons c t ih =>
    have ht := ih (fun x hx => h x (List.mem_cons_of_mem c hx))
    simp only [goToLower, List.map_cons, h c (List.mem_cons_self c t)]
    simpa [goToLower] using ht

/-- `goToLower` is idempotent. -/
theorem goToLower_idem (s : GoStr) : goToLower (goToLower s) = goToLower s := by
  apply goToLower_fixed_of
  intro c hc
  rcases List.mem_map.mp hc with ⟨c0, _, rfl⟩
  exact goToLowerChar_idem c0

/-- `dropWhile` is idempotent. -/
theorem dropWhile_idem (p : Char → Bool) (l : List Char) :
    List.dropWhile p (List.dropWhile p l) = List.dropWhile p l := by
  induction l with
  | nil => rfl
  | cons c t ih =>
    by_cases h : p c
    · simp [List.dropWhile_cons, h, ih]
    · simp [List.dropWhile_cons, h]

/-- Dropping from the front of `l ++ [c]` either keeps the final `c`
attached to a non-empty remainder, or consumes all of `l`. -/
theorem dropWhile_append_singleton (p : Char → Bool) (c : Char)
    (l : List Char) :
    List.dropWhile p (l ++ [c]) = List.dropWhile p l ++ [c] ∨
    (List.dropWhile p l = [] ∧
      List.dropWhile p (l ++ [c]) = List.dropWhile p [c]) := by
  induction l with
  | nil => exact .inr ⟨rfl, rfl⟩
  | cons d t ih =>
    by_cases h : p d
    · simpa [List.dropWhile_cons, h] using ih
    · left
      simp [List.dropWhile_cons, h]

/-- Front-trimming is preserved by trimming the back. -/
theorem dropWhile_rev_dropWhile (p : Char → Bool) (u : List Char)
    (hu : List.dropWhile p u = u) :
    List.dropWhile p ((List.dropWhile p u.reverse).reverse) =
      (List.dropWhile p u.reverse).reverse := by
  cases u with
  | nil => rfl
  | cons c t =>
    have hc : ¬ p c = true := by
      intro hpc
      have hlen := congrArg List.length hu
      simp only [List.dropWhile_cons, hpc, if_true, List.length_cons] at hlen
      have hle := (List.dropWhile_sublist (l := t) p).length_le
      omega
    rw [List.reverse_cons]
    rcases dropWhile_append_singleton p c t.reverse with h | ⟨h1, h2⟩
    · rw [h, List.reverse_append]
      simp only [List.reverse_cons, List.reverse_nil, List.nil_append,
        List.singleton_append]
      rw [List.dropWhile_cons, if_neg (by simpa using hc)]
    · rw [h2]
      rw [List.dropWhile_cons, if_neg (by simpa using hc)]
      simp [List.dropWhile_cons, hc]

/-- `goTrimSpace` is idempotent. -/
theorem goTrimSpace_idem (s : GoStr) :
    goTrimSpace (goTrimSpace s) = goTrimSpace s := by
  unfold goTrimSpace
  have hu : List.dropWhile goIsSpaceChar (List.dropWhile goIsSpaceChar s) =
      List.dropWhile goIsSpaceChar s := dropWhile_idem _ s
  rw [dropWhile_rev_dropWhile goIsSpaceChar (List.dropWhile goIsSpaceChar s) hu]
  rw [List.reverse_reverse]
  rw [dropWhile_idem]

/-- Characters of the trim survive from the original string. -/
theorem mem_of_mem_goTrimSpace (c : Char) (t : GoStr)
    (hc : c ∈ goTrimSpace t) : c ∈ t := by
  unfold goTrimSpace at hc
  rw [List.mem_reverse] at hc
  have h1 := (List.dropWhile_sublist _).subset hc
  rw [List.mem_reverse] at h1
  exact (List.dropWhile_sublist _).subset h1

/-- The hostname computed from one segment is fixed by both
normalization passes. -/
theorem seg_hostname_fixed (h : GoStr) :
    goToLower (goTrimSpace (goToLower h)) = goTrimSpace (goToLower h) ∧
    goTrimSpace (goTrimSpace (goToLower h)) = goTrimSpace (goToLower h) := by
  constructor
  · apply goToLower_fixed_of
    intro c hc
    rcases List.mem_map.mp (mem_of_mem_goTrimSpace c _ hc) with ⟨c0, _, rfl⟩
    exact goToLowerChar_idem c0
  · exact goTrimSpace_idem (goToLower h)

/-- The hostname computed from a comma-free segment is comma-free. -/
theorem seg_hostname_no_comma (h : GoStr) (hh : ',' ∉ h) :
    ',' ∉ goTrimSpace (goToLower h) := by
  intro hmem
  have h1 := mem_of_mem_goTrimSpace _ _ hmem
  rcases List.mem_map.mp h1 with ⟨c0, hc0, hceq⟩
  exact hh (goToLowerChar_eq_comma c0 hceq ▸ hc0)

/-- Segments produced by `splitComma` never contain a comma. -/
theorem mem_splitComma_no_comma : ∀ (s seg : GoStr),
    seg ∈ splitComma s → ',' ∉ seg := by
  intro s
  induction s with
  | nil =>
    intro seg hseg
    simp only [splitComma, List.mem_singleton] at hseg
    subst hseg
    simp
  | cons c t ih =>
    intro seg hseg
    by_cases hc : c = ','
    · subst hc
      simp only [splitComma, reduceIte, List.mem_cons] at hseg
      rcases hseg with rfl | hseg
      · simp
      · exact ih seg hseg
    · simp only [splitComma, if_neg hc] at hseg
      obtain ⟨q, hsp⟩ : ∃ q, splitComma t = q := ⟨_, rfl⟩
      rw [hsp] at hseg
      cases q with
      | nil =>
        simp only [List.mem_singleton] at hseg
        subst hseg
        intro hany
        rcases List.mem_cons.mp hany with h | h
        · exact hc h.symm
        · simp at h
      | cons s0 ss =>
        rcases List.mem_cons.mp hseg with rfl | h2
        · intro hm
          rcases List.mem_cons.mp hm with h | h
          · exact hc h.symm
          · exact ih s0 (by rw [hsp]; exact List.mem_cons_self _ _) h
        · exact ih seg (by rw [hsp]; exact List.mem_cons_of_mem _ h2)

/-- A comma-free string splits to itself. -/
theorem splitComma_no_comma : ∀ x : GoStr, ',' ∉ x → splitComma x = [x]
  | [], _ => rfl
  | c :: t, h => by
    have hc : ¬ c = ',' := fun hh => h (hh ▸ List.mem_cons_self c t)
    rw [splitComma, if_neg hc,
      splitComma_no_comma t (fun hm => h (List.mem_cons_of_mem c hm))]

/-- Splitting distributes over an explicit comma after a comma-free
chunk. -/
theorem splitComma_append : ∀ (x r : GoStr), ',' ∉ x →
    splitComma (x ++ ',' :: r) = x :: splitComma r
  | [], r, _ => by simp [splitComma]
  | c :: t, r, h => by
    have hc : ¬ c = ',' := fun hh => h (hh ▸ List.mem_cons_self c t)
    rw [List.cons_append, splitComma, if_neg hc,
      splitComma_append t r (fun hm => h (List.mem_cons_of_mem c hm))]

/-- `intercalate` unfolds on two or more chunks. -/
theorem intercalate_cons_cons (sep x y : GoStr) (ys : List GoStr) :
    List.intercalate sep (x :: y :: ys) =
      x ++ sep ++ List.intercalate sep (y :: ys) := by
  simp [List.intercalate, List.intersperse_cons_cons]

/-- `intercalate` over a comma unfolds on two or more chunks. -/
theorem intercalate_comma_cons (x y : GoStr) (ys : List GoStr) :
    List.intercalate (gs ",") (x :: y :: ys) =
      x ++ ',' :: List.intercalate (gs ",") (y :: ys) := by
  rw [intercalate_cons_cons]
  simp [gs, List.append_assoc]

/-- Splitting inverts comma-joining of comma-free chunks. -/
theorem splitComma_intercalate : ∀ (x : GoStr) (xs : List GoStr),
    ',' ∉ x → (∀ y ∈ xs, ',' ∉ y) →
    splitComma (List.intercalate (gs ",") (x :: xs)) = x :: xs := by
  intro x xs
  induction xs generalizing x with
  | nil =>
    intro hx _
    have h1 : List.intercalate (gs ",") [x] = x := by
      simp [List.intercalate]
    rw [h1, splitComma_no_comma x hx]
  | cons y ys ih =>
    intro hx hall
    rw [intercalate_comma_cons, splitComma_append x _ hx,
      ih y (hall y (List.mem_cons_self y ys))
        (fun z hz => hall z (List.mem_cons_of_mem y hz))]

/-- Provenance of the hostnames accumulated by the parse loop: either
already in the accumulator, or the non-empty normalization of some
segment. -/
theorem parseHostnamesLoop_mem : ∀ (segs acc : List GoStr) (x : GoStr),
    x ∈ parseHostnamesLoop acc segs →
    x ∈ acc ∨ (x ≠ [] ∧ ∃ seg, seg ∈ segs ∧
      x = goTrimSpace (goToLower seg)) := by
  intro segs
  induction segs with
  | nil =>
    intro acc x hx
    exact .inl hx
  | cons h t ih =>
    intro acc x hx
    simp only [parseHostnamesLoop] at hx
    split at hx
    · rename_i hcond
      rcases ih _ x hx with hacc | ⟨hne, seg, hseg, rfl⟩
      · rcases List.mem_append.mp hacc with h1 | h1
        · exact .inl h1
        · right
          refine ⟨?_, h, List.mem_cons_self h t, ?_⟩
          · rw [List.mem_singleton] at h1
            rw [h1]
            exact hcond.1
          · rw [List.mem_singleton] at h1
            exact h1
      · exact .inr ⟨hne, seg, List.mem_cons_of_mem _ hseg, rfl⟩
    · rcases ih _ x hx with hacc | ⟨hne, seg, hseg, rfl⟩
      · exact .inl hacc
      · exact .inr ⟨hne, seg, List.mem_cons_of_mem _ hseg, rfl⟩

/-- The parse loop preserves freedom from duplicates. -/
theorem parseHostnamesLoop_nodup : ∀ (segs acc : List GoStr), acc.Nodup →
    (parseHostnamesLoop acc segs).Nodup := by
  intro segs
  induction segs with
  | nil => intro acc h; exact h
  | cons h t ih =>
    intro acc hacc
    simp only [parseHostnamesLoop]
    split
    · rename_i hcond
      refine ih _ ?_
      rw [List.nodup_append]
      exact ⟨hacc, List.nodup_singleton _,
        fun a ha hb => by rw [List.mem_singleton] at hb; subst hb
                          exact hcond.2 ha⟩
    · exact ih _ hacc

/-- On a list of already-normalized, duplicate-free hostnames disjoint
from the accumulator, the parse loop is a plain append. -/
theorem parseHostnamesLoop_fixed : ∀ (xs acc : List GoStr),
    (∀ x ∈ xs, x ≠ [] ∧ goTrimSpace (goToLower x) = x) → xs.Nodup →
    (∀ x ∈ xs, x ∉ acc) →
    parseHostnamesLoop acc xs = acc ++ xs := by
  intro xs
  induction xs with
  | nil =>
    intro acc _ _ _
    simp [parseHostnamesLoop]
  | cons h t ih =>
    intro acc hgood hnd hdisj
    have hh := hgood h (List.mem_cons_self h t)
    simp only [parseHostnamesLoop, hh.2]
    rw [if_pos ⟨hh.1, hdisj h (List.mem_cons_self h t)⟩]
    rw [ih (acc ++ [h])
      (fun x hx => hgood x (List.mem_cons_of_mem h hx))
      hnd.of_cons
      (fun x hx hmem => by
        rcases List.mem_append.mp hmem with h1 | h1
        · exact hdisj x (List.mem_cons_of_mem h hx) h1
        · rw [List.mem_singleton] at h1
          subst h1
          exact (List.nodup_cons.mp hnd).1 hx)]
    simp

/-- C9.  `ParseHostnames` yields, for every input, a list of non-empty,
lowercase (fixed by `goToLower`), trimmed (fixed by `goTrimSpace`)
hostnames with no duplicates, sorted ascending; the empty input yields
the empty list; and the function is idempotent: re-normalizing the
comma-join of its own output returns the same list. -/
theorem C9_parseHostnames_normalization :
    ParseHostnames [] = [] ∧
    ∀ s : GoStr,
      (∀ x ∈ ParseHostnames s,
        x ≠ [] ∧ goToLower x = x ∧ goTrimSpace x = x) ∧
      (ParseHostnames s).Nodup ∧
      StrSorted (ParseHostnames s) ∧
      ParseHostnames (List.intercalate (gs ",") (ParseHostnames s)) =
        ParseHostnames s := by
  refine ⟨rfl, ?_⟩
  intro s
  by_cases hs : s = []
  · subst hs
    refine ⟨?_, ?_, ?_, rfl⟩
    · intro x hx
      simp [ParseHostnames] at hx
    · simp [ParseHostnames]
    · simp [ParseHostnames, StrSorted]
  have hP : ParseHostnames s =
      sortStrings (parseHostnamesLoop [] (splitComma s)) := by
    rw [ParseHostnames, if_neg hs]
  have hmem : ∀ x ∈ ParseHostnames s, x ≠ [] ∧ ∃ seg, seg ∈ splitComma s ∧
      x = goTrimSpace (goToLower seg) := by
    intro x hx
    rw [hP] at hx
    have hx2 := (sortStrings_perm _).mem_iff.mp hx
    rcases parseHostnamesLoop_mem _ _ _ hx2 with h0 | ⟨hne, seg, hseg, rfl⟩
    · simp at h0
    · exact ⟨hne, seg, hseg, rfl⟩
  have hgood : ∀ x ∈ ParseHostnames s,
      x ≠ [] ∧ goToLower x = x ∧ goTrimSpace x = x := by
    intro x hx
    rcases hmem x hx with ⟨hne, seg, _, rfl⟩
    exact ⟨hne, (seg_hostname_fixed seg).1, (seg_hostname_fixed seg).2⟩
  have hnodup : (ParseHostnames s).Nodup := by
    rw [hP]
    exact (sortStrings_perm _).nodup_iff.mpr
      (parseHostnamesLoop_nodup _ _ List.nodup_nil)
  have hsorted : StrSorted (ParseHostnames s) := by
    rw [hP]
    exact sortStrings_sorted _
  have hnc : ∀ x ∈ ParseHostnames s, ',' ∉ x := by
    intro x hx
    rcases hmem x hx with ⟨_, seg, hseg, rfl⟩
    exact seg_hostname_no_comma seg (mem_splitComma_no_comma s seg hseg)
  refine ⟨hgood, hnodup, hsorted, ?_⟩
  obtain ⟨r, hr⟩ : ∃ r, ParseHostnames s = r := ⟨_, rfl⟩
  rw [hr] at hgood hnodup hsorted hnc ⊢
  cases r with
  | nil => rfl
  | cons x xs =>
    have hx0 : x ∈ x :: xs := List.mem_cons_self x xs
    have hjne : List.intercalate (gs ",") (x :: xs) ≠ [] := by
      have hxne : x ≠ [] := (hgood x hx0).1
      cases xs with
      | nil =>
        have h1 : List.intercalate (gs ",") [x] = x := by
          simp [List.intercalate]
        rw [h1]
        exact hxne
      | cons y ys =>
        rw [intercalate_comma_cons]
        intro hcon
        cases x with
        | nil => exact hxne rfl
        | cons c cs => simp at hcon
    rw [ParseHostnames, if_neg hjne]
    rw [splitComma_intercalate x xs (hnc x hx0)
      (fun y hy => hnc y (List.mem_cons_of_mem x hy))]
    rw [parseHostnamesLoop_fixed (x :: xs) []
      (fun z hz => ⟨(hgood z hz).1, by
        rw [(hgood z hz).2.1, (hgood z hz).2.2]⟩)
      hnodup
      (fun z _ hz => (List.not_mem_nil z) hz)]
    rw [List.nil_append]
    exact sortStrings_of_sorted _ hsorted

/-- Witness for C9 at a concrete mixed-case, padded, duplicated
input. -/
theorem C9_witness :
    (gs "a.com" ≠ [] ∧ goToLower (gs "a.com") = gs "a.com" ∧
      goTrimSpace (gs "a.com") = gs "a.com") ∧
    (ParseHostnames (gs " B.com ,a.com,, a.com")).Nodup ∧
    StrSorted (ParseHostnames (gs " B.com ,a.com,, a.com")) ∧
    ParseHostnames (List.intercalate (gs ",")
        (ParseHostnames (gs " B.com ,a.com,, a.com"))) =
      ParseHostnames (gs " B.com ,a.com,, a.com") := by
  have h := C9_parseHostnames_normalization.2 (gs " B.com ,a.com,, a.com")
  exact ⟨h.1 (gs "a.com") (by decide), h.2.1, h.2.2.1, h.2.2.2⟩

/-- `intercalate` keeps every chunk contiguous. -/
theorem mem_intercalate_decomp (sep : GoStr) :
    ∀ (xs : List GoStr) (x : GoStr), x ∈ xs →
      ∃ l r, List.intercalate sep xs = l ++ (x ++ r) := by
  intro xs
  induction xs with
  | nil =>
    intro x hx
    exact absurd hx (List.not_mem_nil x)
  | cons a t ih =>
    intro x hx
    rcases List.mem_cons.mp hx with rfl | hx2
    · cases t with
      | nil =>
        refine ⟨[], [], ?_⟩
        simp [List.intercalate]
      | cons b ts =>
        refine ⟨[], sep ++ List.intercalate sep (b :: ts), ?_⟩
        rw [intercalate_cons_cons]
        simp [List.append_assoc]
    · have htne : t ≠ [] := by
        rintro rfl
        exact (List.not_mem_nil x) hx2
      cases t with
      | nil => exact absurd rfl htne
      | cons b ts =>
        rcases ih x hx2 with ⟨l, r, hlr⟩
        refine ⟨a ++ sep ++ l, r, ?_⟩
        rw [intercalate_cons_cons, hlr]
        simp [List.append_assoc]

/-- `leadsWith` holds for any extension of the segment. -/
theorem leadsWith_append (seg : GoStr) :
    ∀ r, leadsWith seg (seg ++ r) = true := by
  induction seg with
  | nil => intro r; rfl
  | cons c cs ih =>
    intro r
    simp [leadsWith, ih r]

/-- A leading occurrence is an occurrence. -/
theorem hasSeg_of_leadsWith (seg big : GoStr)
    (h : leadsWith seg big = true) : hasSeg seg big = true := by
  cases big with
  | nil => exact h
  | cons c rest =>
    rw [hasSeg]
    simp [h]

/-- A decomposition gives a verbatim occurrence. -/
theorem hasSeg_of_decomp (seg : GoStr) :
    ∀ (l r big : GoStr), big = l ++ (seg ++ r) → hasSeg seg big = true := by
  intro l
  induction l with
  | nil =>
    intro r big hbig
    subst hbig
    rw [List.nil_append]
    exact hasSeg_of_leadsWith seg (seg ++ r) (leadsWith_append seg r)
  | cons c l ih =>
    intro r big hbig
    subst hbig
    rw [List.cons_append, hasSeg, ih r _ rfl]
    simp

/-- C10.  `BuildExpression` embeds every hostname verbatim between two
double quotes with no escaping or validation: each hostname occurs
contiguously and unchanged inside the generated expression (whatever
quotes, braces or spaces it contains), and as a consequence
non-normalized input can change the structure of the expression — the
single hostname `a" "b` produces the byte-identical expression as the
two hostnames `a`, `b`. -/
theorem C10_buildExpression_embeds_verbatim :
    (∀ (hostnames : List GoStr) (h : GoStr), h ∈ hostnames →
      hasSeg h (BuildExpression hostnames) = true) ∧
    BuildExpression [gs "a\" \"b"] = BuildExpression [gs "a", gs "b"] ∧
    [gs "a\" \"b"] ≠ [gs "a", gs "b"] := by
  refine ⟨?_, by decide, by decide⟩
  intro hostnames h hmem
  have hne : hostnames ≠ [] := by
    rintro rfl
    exact (List.not_mem_nil h) hmem
  have hq : quoteHost h ∈ hostnames.map quoteHost :=
    List.mem_map_of_mem _ hmem
  rcases mem_intercalate_decomp (gs " ") _ _ hq with ⟨l, r, hlr⟩
  refine hasSeg_of_decomp h (gs "http.host in \x7b" ++ (l ++ ['"']))
    (['"'] ++ (r ++ gs "\x7d")) _ ?_
  rw [BuildExpression, if_neg hne, hlr]
  have hquote : quoteHost h = ['"'] ++ (h ++ ['"']) := rfl
  rw [hquote]
  simp [List.append_assoc]

/-- Witness for C10: `a.com` occurs verbatim in the expression built
from `a.com` and `b.com`. -/
theorem C10_witness :
    hasSeg (gs "a.com") (BuildExpression [gs "a.com", gs "b.com"]) = true := by
  exact C10_buildExpression_embeds_verbatim.1 [gs "a.com", gs "b.com"]
    (gs "a.com") (by decide)

end CfSwitch
